import Mathlib

/-!
Shallow embedding of the reservation-approval core of the `reservas` Django
application (`api/views.py`, `api/forms.py`).  Time stamps are modelled as
integers, database tables as lists inside an explicit `State`, and each view
function as a state-passing Lean function.  The `models.py` file is not part
of the sources; the few facts it decides (status constants, decision choices,
the `start < end` validation, the human status labels and `str(reservation)`)
are modelled from the spec and marked as such in their doc comments.
-/

namespace Reservas

/-- Reservation status, from the spec data model: one of Pending, Approved,
Rejected (source constants `Reservation.PENDING / APPROVED / REJECTED` live in
the missing `models.py`). -/
inductive Status where
  | pending
  | approved
  | rejected
deriving DecidableEq, Repr

/-- Decision codes stored on an `Approval` row: `"APPR"` or `"REJ"` in
`views.py` (`decision = form.cleaned_data["decision"]  # "APPR" | "REJ"`). -/
inductive Decision where
  | APPR
  | REJ
deriving DecidableEq, Repr

/-- A user account: identity plus the `is_staff` flag consulted by
`ReservationCreateView.form_valid` (each user is assumed to carry a
`Profile`, which `register` guarantees via `get_or_create`). -/
structure User where
  id : Nat
  username : String
  is_staff : Bool
deriving DecidableEq, Repr

/-- A reservable space (`Space` model): only `id` and `name` are consulted by
the embedded operations. -/
structure Space where
  id : Nat
  name : String
deriving DecidableEq, Repr

/-- A reservation row.  `user` and `space` are foreign-key ids; `stop` stands
for the source field `end` (a Lean keyword).  Times are integer instants. -/
structure Reservation where
  id : Nat
  user : Nat
  space : Nat
  start : Int
  stop : Int
  status : Status
  purpose : String
deriving DecidableEq, Repr

/-- An `Approval` (decision) row: keyed by the decided reservation, carrying
approver, decision code and free-text notes. -/
structure Approval where
  id : Nat
  reservation : Nat
  approver : Nat
  decision : Decision
  notes : String
deriving DecidableEq, Repr

/-- A notification row: addressee and message, as created by
`Notification.objects.create(user=..., message=...)`. -/
structure Notification where
  user : Nat
  message : String
deriving DecidableEq, Repr

/-- The database snapshot: the four tables the embedded views touch, plus
fresh-id counters standing for the autoincrement primary keys. -/
structure State where
  users : List User
  spaces : List Space
  reservations : List Reservation
  approvals : List Approval
  notifications : List Notification
  nextReservationId : Nat
  nextApprovalId : Nat
deriving DecidableEq, Repr

/-- Conflict Checker, from `approve_or_reject` lines 169-175: an approved
reservation for the same space, other than the candidate itself, whose
interval satisfies `start__lt=reservation.end, end__gt=reservation.start`. -/
def hasConflict (st : State) (r : Reservation) : Bool :=
  st.reservations.any fun o =>
    o.space == r.space && o.status == Status.approved && o.id != r.id &&
      o.start < r.stop && o.stop > r.start

/-- Normalisation of legacy button values, from `approve_or_reject` lines
157-159: `'approve'` becomes `"APPR"` and `'reject'` becomes `"REJ"`; any
other value is passed through unchanged. -/
def normalizeDecision (raw : String) : String :=
  if raw = "approve" then "APPR"
  else if raw = "reject" then "REJ"
  else raw

/-- Validation of the `decision` field by `ApprovalForm`.  Modelled from the
spec: the decision choices live in the missing `models.py`; the spec fixes
them to `{Approved, Rejected}` encoded as `"APPR"` and `"REJ"`, and any other
submitted value makes the form invalid. -/
def parseDecision (raw : String) : Option Decision :=
  if raw = "APPR" then some Decision.APPR
  else if raw = "REJ" then some Decision.REJ
  else none

/-- `Approval.objects.update_or_create(reservation=..., defaults={...})`
(line 183): if a row keyed by this reservation exists its approver, decision
and notes are overwritten in place (Django updates the single row found by
`get`; under the one-row-per-reservation invariant the map below touches
exactly that row), otherwise a fresh row is created.  Returns the new table
and the next free approval id. -/
def update_or_create (approvals : List Approval) (nextId : Nat) (pk : Nat)
    (approver : Nat) (decision : Decision) (notes : String) :
    List Approval × Nat :=
  if approvals.any (fun a => a.reservation == pk) then
    (approvals.map fun a =>
      if a.reservation == pk then
        { a with approver := approver, decision := decision, notes := notes }
      else a, nextId)
  else
    (approvals ++ [⟨nextId, pk, approver, decision, notes⟩], nextId + 1)

/-- Human-readable reference to a reservation used inside notification
messages.  Modelled from the spec: `str(reservation)` is defined in the
missing `models.py`; the spec only requires the message to reference the
reservation. -/
def reservationStr (r : Reservation) : String :=
  toString r.id

/-- Notification message on approval, from line 194. -/
def approvedMsg (r : Reservation) : String :=
  "Tu reserva " ++ reservationStr r ++ " fue aprobada."

/-- Notification message on rejection, from line 201. -/
def rejectedMsg (r : Reservation) : String :=
  "Tu reserva " ++ reservationStr r ++ " fue rechazada."

/-- Outcome of the `approve_or_reject` view. -/
inductive DecideResult where
  | notFound
  | formError
  | conflictError
  | success
deriving DecidableEq, Repr

/-- The `approve_or_reject` view (lines 149-205) on a POST request: look the
reservation up (404 if absent), normalise legacy decision values, validate
the form, guard an approval with the Conflict Checker (abort with the state
unchanged on conflict), then upsert the `Approval` row, set and persist the
reservation status, and notify the reservation owner. -/
def approve_or_reject (st : State) (pk : Nat) (rawDecision : String)
    (notes : String) (approver : Nat) : DecideResult × State :=
  match st.reservations.find? (fun r => r.id == pk) with
  | none => (DecideResult.notFound, st)
  | some reservation =>
    match parseDecision (normalizeDecision rawDecision) with
    | none => (DecideResult.formError, st)
    | some decision =>
      if decision = Decision.APPR && hasConflict st reservation then
        (DecideResult.conflictError, st)
      else
        let uoc :=
          update_or_create st.approvals st.nextApprovalId pk approver decision notes
        (DecideResult.success,
          { st with
              approvals := uoc.1
              nextApprovalId := uoc.2
              notifications := st.notifications ++
                [⟨reservation.user,
                  if decision = Decision.APPR then approvedMsg reservation
                  else rejectedMsg reservation⟩]
              reservations := st.reservations.map fun r =>
                if r.id == pk then
                  { r with status :=
                      if decision = Decision.APPR then Status.approved
                      else Status.rejected }
                else r })

/-- Outcome of reservation creation. -/
inductive CreateResult where
  | validationError
  | created
deriving DecidableEq, Repr

/-- Reservation creation (`ReservationCreateView.form_valid`, lines 119-128):
notify every staff user, then save the new reservation in Pending status.
The guard `start < stop` is modelled from the spec: the `start < end`
validation lives in the missing `models.py` / form-level clean, and the spec
requires a `ValidationError` with no persistence when `start >= end`.  No
conflict check is run on creation. -/
def createReservation (st : State) (user : Nat) (space : Nat)
    (start stop : Int) (purpose : String) : CreateResult × State :=
  if start < stop then
    let staffNotes : List Notification :=
      (st.users.filter (fun u => u.is_staff)).map fun u =>
        ⟨u.id, "Nueva reserva pendiente de aprobación."⟩
    let r : Reservation :=
      ⟨st.nextReservationId, user, space, start, stop, Status.pending, purpose⟩
    (CreateResult.created,
      { st with
          reservations := st.reservations ++ [r]
          notifications := st.notifications ++ staffNotes
          nextReservationId := st.nextReservationId + 1 })
  else
    (CreateResult.validationError, st)

/-- Human status label (`get_status_display`).  Modelled from the spec: the
display strings are choice labels in the missing `models.py`; only their
existence matters to the embedded claims. -/
def get_status_display (s : Status) : String :=
  match s with
  | Status.pending => "Pendiente"
  | Status.approved => "Aprobada"
  | Status.rejected => "Rechazada"

/-- Rendering of a time instant, standing for
`strftime("%Y-%m-%d %H:%M")` applied to the source datetime. -/
def formatDateTime (t : Int) : String :=
  toString t

/-- The newline flattening and trimming applied to CSV text cells
(lines 298 and 302): `replace("\r", " ").replace("\n", " ").strip()`.
Replacing a one-character pattern by a one-character replacement is a
character-wise map, and `strip()` drops the whitespace at both ends; both
are written here over the character list so that the kernel can evaluate
them. -/
def csvClean (s : String) : String :=
  String.mk
    ((((s.data.map fun c =>
        if c = '\r' then ' ' else if c = '\n' then ' ' else c).dropWhile
          Char.isWhitespace).reverse.dropWhile Char.isWhitespace).reverse)

/-- Username of a user id (`r.user.username`); empty when the id dangles. -/
def usernameOf (st : State) (uid : Nat) : String :=
  ((st.users.find? (fun u => u.id == uid)).map User.username).getD ""

/-- Space name of a space id (`r.space.name`); empty when the id dangles. -/
def spaceNameOf (st : State) (sid : Nat) : String :=
  ((st.spaces.find? (fun s => s.id == sid)).map Space.name).getD ""

/-- `Approval.objects.filter(reservation=r).order_by('-id').first()`
(line 301): among the approvals keyed by this reservation, the one with the
greatest id, or `none` when there is none. -/
def latestApproval (st : State) (pk : Nat) : Option Approval :=
  (st.approvals.filter (fun a => a.reservation == pk)).foldl
    (fun best a =>
      match best with
      | none => some a
      | some b => if b.id < a.id then some a else some b)
    none

/-- Structured CSV output: leading byte-order mark, field delimiter, header
row and data rows.  Serialisation of the rows to bytes is done by the
external `csv.writer` library and is outside the embedding. -/
structure Csv where
  bom : String
  delimiter : String
  header : List String
  rows : List (List String)
deriving DecidableEq, Repr

/-- The notes cell of a CSV row (line 302): the notes of the most recent
approval of the reservation, flattened and trimmed, or empty when none. -/
def exportNotesCell (st : State) (pk : Nat) : String :=
  csvClean (((latestApproval st pk).map Approval.notes).getD "")

/-- One CSV data row for a reservation (lines 304-313). -/
def exportRow (st : State) (r : Reservation) : List String :=
  [toString r.id, usernameOf st r.user, spaceNameOf st r.space,
    formatDateTime r.start, formatDateTime r.stop,
    get_status_display r.status, csvClean r.purpose,
    exportNotesCell st r.id]

/-- The `export_reservations_csv` view (lines 274-314): pick the delimiter
from the optional `sep` query parameter (`request.GET.get("sep", ";")`, then
`comma` gives `,`, `tab` gives a tab, anything else `;`), emit a byte-order
mark, the fixed header row, and one row per stored reservation.  The view
performs no writes, so the state component of the result is the input
state. -/
def export_reservations_csv (st : State) (sep : Option String) :
    State × Csv :=
  let s := sep.getD ";"
  let delimiter := if s = "comma" then "," else if s = "tab" then "\t" else ";"
  (st,
    { bom := "\ufeff"
      delimiter := delimiter
      header := ["ID", "Usuario", "Espacio", "Inicio", "Fin", "Estado",
        "Comentario", "Notas de la decision final"]
      rows := st.reservations.map (exportRow st) })

/-- A workflow operation: reservation creation, a staff decision, or a CSV
export. -/
inductive Op where
  | createOp (user space : Nat) (start stop : Int) (purpose : String)
  | decideOp (pk : Nat) (rawDecision notes : String) (approver : Nat)
  | exportOp (sep : Option String)
deriving Repr

/-- State transition of one workflow operation. -/
def stepOp (st : State) (op : Op) : State :=
  match op with
  | Op.createOp u s a b p => (createReservation st u s a b p).2
  | Op.decideOp pk d n ap => (approve_or_reject st pk d n ap).2
  | Op.exportOp sep => (export_reservations_csv st sep).1

/-- State reached after a sequence of workflow operations. -/
def runOps (st : State) (ops : List Op) : State :=
  ops.foldl stepOp st

/-- No two distinct approved reservations of the same space in the list have
overlapping half-open intervals. -/
def noOverlapPairs (l : List Reservation) : Prop :=
  ∀ r1 ∈ l, ∀ r2 ∈ l,
    r1.status = Status.approved → r2.status = Status.approved →
    r1.space = r2.space → r1.id ≠ r2.id →
    ¬(r1.start < r2.stop ∧ r2.start < r1.stop)

/-- The core safety invariant: no two distinct approved reservations of the
same space have overlapping half-open intervals. -/
def approvedNoOverlap (st : State) : Prop :=
  noOverlapPairs st.reservations

/-- Store well-formedness: reservation primary keys are pairwise distinct and
below the autoincrement counter (what the database guarantees). -/
def wfStore (st : State) : Prop :=
  (st.reservations.map Reservation.id).Nodup ∧
    ∀ r ∈ st.reservations, r.id < st.nextReservationId

/-- Placeholder reservation used as the default of list lookups in
statements; never an element of any store under consideration. -/
def defaultReservation : Reservation :=
  ⟨0, 0, 0, 0, 0, Status.pending, ""⟩

/-- A sample approved reservation used by the concrete witnesses. -/
def sampleRes1 : Reservation :=
  ⟨1, 10, 1, 10, 20, Status.approved, "clase"⟩

/-- A sample pending reservation overlapping `sampleRes1`. -/
def sampleRes2 : Reservation :=
  ⟨2, 11, 1, 15, 25, Status.pending, "taller"⟩

/-- A sample pending reservation adjacent to `sampleRes1` (no overlap). -/
def sampleRes3 : Reservation :=
  ⟨3, 11, 1, 20, 30, Status.pending, "reunion"⟩

/-- A sample store used by the concrete witnesses: one staff user, one space,
one approved and two pending reservations, one prior decision record. -/
def sampleState : State :=
  { users := [⟨5, "admin", true⟩, ⟨10, "alice", false⟩, ⟨11, "bob", false⟩]
    spaces := [⟨1, "Sala 1"⟩]
    reservations := [sampleRes1, sampleRes2, sampleRes3]
    approvals := [⟨1, 1, 5, Decision.APPR, "ok"⟩]
    notifications := []
    nextReservationId := 4
    nextApprovalId := 2 }

lemma hasConflict_eq_true (st : State) (r : Reservation) :
    hasConflict st r = true ↔
      ∃ o ∈ st.reservations, o.space = r.space ∧ o.status = Status.approved ∧
        o.id ≠ r.id ∧ o.start < r.stop ∧ r.start < o.stop := by
  simp only [hasConflict, List.any_eq_true, Bool.and_eq_true, beq_iff_eq,
    bne_iff_ne, decide_eq_true_eq, gt_iff_lt, and_assoc]

lemma hasConflict_eq_false (st : State) (r : Reservation)
    (h : hasConflict st r = false) :
    ∀ o ∈ st.reservations, o.status = Status.approved → o.space = r.space →
      o.id ≠ r.id → ¬(o.start < r.stop ∧ r.start < o.stop) := by
  intro o ho hs hsp hid hov
  have htrue : hasConflict st r = true :=
    (hasConflict_eq_true st r).mpr ⟨o, ho, hsp, hs, hid, hov.1, hov.2⟩
  rw [h] at htrue
  cases htrue

lemma update_or_create_mem (approvals : List Approval) (nextId pk approver : Nat)
    (d : Decision) (notes : String) :
    ∃ a ∈ (update_or_create approvals nextId pk approver d notes).1,
      a.reservation = pk ∧ a.approver = approver ∧ a.decision = d ∧
        a.notes = notes := by
  unfold update_or_create
  by_cases h : approvals.any (fun a => a.reservation == pk) = true
  · rw [if_pos h]
    obtain ⟨x, hx, hxk⟩ := List.any_eq_true.mp h
    have hk : x.reservation = pk := beq_iff_eq.mp hxk
    refine ⟨_, List.mem_map_of_mem _ hx, ?_⟩
    simp [hxk, hk]
  · rw [if_neg h]
    exact ⟨⟨nextId, pk, approver, d, notes⟩, by simp, rfl, rfl, rfl, rfl⟩

lemma approve_or_reject_congr (st : State) (pk : Nat) (raw1 raw2 notes : String)
    (approver : Nat) (h : normalizeDecision raw1 = normalizeDecision raw2) :
    approve_or_reject st pk raw1 notes approver =
      approve_or_reject st pk raw2 notes approver := by
  unfold approve_or_reject
  rw [h]

lemma approve_or_reject_run (st : State) (pk : Nat) (raw notes : String)
    (approver : Nat) (r : Reservation) (d : Decision)
    (hr : st.reservations.find? (fun x => x.id == pk) = some r)
    (hd : parseDecision (normalizeDecision raw) = some d)
    (hnc : d = Decision.APPR → hasConflict st r = false) :
    approve_or_reject st pk raw notes approver =
      (DecideResult.success,
        { st with
            approvals :=
              (update_or_create st.approvals st.nextApprovalId pk approver d notes).1
            nextApprovalId :=
              (update_or_create st.approvals st.nextApprovalId pk approver d notes).2
            notifications := st.notifications ++
              [⟨r.user, if d = Decision.APPR then approvedMsg r else rejectedMsg r⟩]
            reservations := st.reservations.map fun x =>
              if x.id == pk then
                { x with status :=
                    if d = Decision.APPR then Status.approved else Status.rejected }
              else x }) := by
  unfold approve_or_reject
  rw [hr, hd]
  cases d with
  | APPR => simp [hnc rfl]
  | REJ => simp

lemma find?_mem_id {l : List Reservation} {pk : Nat} {r : Reservation}
    (h : l.find? (fun x => x.id == pk) = some r) : r ∈ l ∧ r.id = pk := by
  have h1 := List.mem_of_find?_eq_some h
  have h2 := List.find?_some h
  exact ⟨h1, by simpa using h2⟩

lemma map_setStatus_ids (l : List Reservation) (pk : Nat) (s' : Status) :
    ((l.map fun r => if r.id == pk then { r with status := s' } else r).map
      Reservation.id) = l.map Reservation.id := by
  rw [List.map_map]
  apply List.map_congr_left
  intro r _
  by_cases h : (r.id == pk) = true <;> simp [Function.comp, h]

lemma setStatus_fields (pk : Nat) (s' : Status) (r : Reservation) :
    ((if r.id == pk then { r with status := s' } else r) : Reservation).id = r.id ∧
    ((if r.id == pk then { r with status := s' } else r) : Reservation).space = r.space ∧
    ((if r.id == pk then { r with status := s' } else r) : Reservation).start = r.start ∧
    ((if r.id == pk then { r with status := s' } else r) : Reservation).stop = r.stop := by
  by_cases h : (r.id == pk) = true <;> simp [h]

lemma noOverlapPairs_setStatus (l : List Reservation) (pk : Nat)
    (res : Reservation) (s' : Status)
    (hnd : (l.map Reservation.id).Nodup)
    (hres : res ∈ l) (hid : res.id = pk)
    (h3 : noOverlapPairs l)
    (hok : s' = Status.approved →
      ∀ o ∈ l, o.status = Status.approved → o.space = res.space →
        o.id ≠ res.id → ¬(o.start < res.stop ∧ res.start < o.stop)) :
    noOverlapPairs
      (l.map fun r => if r.id == pk then { r with status := s' } else r) := by
  intro r1 h1 r2 h2 ha1 ha2 hsp hne hov
  obtain ⟨a, ha, rfl⟩ := List.mem_map.mp h1
  obtain ⟨b, hb, rfl⟩ := List.mem_map.mp h2
  obtain ⟨eaid, easp, east, eaen⟩ := setStatus_fields pk s' a
  obtain ⟨ebid, ebsp, ebst, eben⟩ := setStatus_fields pk s' b
  rw [eaid, ebid] at hne
  rw [easp, ebsp] at hsp
  rw [east, eben, ebst, eaen] at hov
  by_cases hA : (a.id == pk) = true
  · have haeq : a = res :=
      List.inj_on_of_nodup_map hnd ha hres ((beq_iff_eq.mp hA).trans hid.symm)
    by_cases hB : (b.id == pk) = true
    · have hbeq : b = res :=
        List.inj_on_of_nodup_map hnd hb hres ((beq_iff_eq.mp hB).trans hid.symm)
      exact hne (by rw [haeq, hbeq])
    · rw [if_pos hA] at ha1
      rw [if_neg hB] at ha2
      have hs' : s' = Status.approved := ha1
      subst haeq
      exact hok hs' b hb ha2 hsp.symm (fun he => hne he.symm) ⟨hov.2, hov.1⟩
  · rw [if_neg hA] at ha1
    by_cases hB : (b.id == pk) = true
    · rw [if_pos hB] at ha2
      have hbeq : b = res :=
        List.inj_on_of_nodup_map hnd hb hres ((beq_iff_eq.mp hB).trans hid.symm)
      have hs' : s' = Status.approved := ha2
      subst hbeq
      exact hok hs' a ha ha1 hsp hne hov
    · rw [if_neg hB] at ha2
      exact h3 a ha b hb ha1 ha2 hsp hne hov

lemma stepOp_preserves (st : State) (op : Op)
    (h1 : (st.reservations.map Reservation.id).Nodup)
    (h2 : ∀ r ∈ st.reservations, r.id < st.nextReservationId)
    (h3 : noOverlapPairs st.reservations) :
    ((stepOp st op).reservations.map Reservation.id).Nodup ∧
    (∀ r ∈ (stepOp st op).reservations, r.id < (stepOp st op).nextReservationId) ∧
    noOverlapPairs (stepOp st op).reservations := by
  cases op with
  | exportOp sep => exact ⟨h1, h2, h3⟩
  | createOp u s a b p =>
    by_cases hlt : a < b
    · simp only [stepOp, createReservation, if_pos hlt]
      refine ⟨?_, ?_, ?_⟩
      · rw [List.map_append, List.nodup_append]
        refine ⟨h1, List.nodup_singleton _, ?_⟩
        intro x hx hy
        simp only [List.map_cons, List.map_nil, List.mem_singleton] at hy
        obtain ⟨r, hr, rfl⟩ := List.mem_map.mp hx
        exact absurd hy (Nat.ne_of_lt (h2 r hr))
      · intro r hr
        rcases List.mem_append.mp hr with hr | hr
        · exact Nat.lt_succ_of_lt (h2 r hr)
        · rw [List.mem_singleton.mp hr]
          exact Nat.lt_succ_self _
      · intro r1 hr1 r2 hr2 ha1 ha2
        rcases List.mem_append.mp hr1 with hr1 | hr1
        · rcases List.mem_append.mp hr2 with hr2 | hr2
          · exact h3 r1 hr1 r2 hr2 ha1 ha2
          · rw [List.mem_singleton.mp hr2] at ha2
            cases ha2
        · rw [List.mem_singleton.mp hr1] at ha1
          cases ha1
    · simp only [stepOp, createReservation, if_neg hlt]
      exact ⟨h1, h2, h3⟩
  | decideOp pk raw notes ap =>
    simp only [stepOp]
    cases hfind : st.reservations.find? (fun x => x.id == pk) with
    | none =>
      have heq : approve_or_reject st pk raw notes ap = (DecideResult.notFound, st) := by
        unfold approve_or_reject
        rw [hfind]
      rw [heq]
      exact ⟨h1, h2, h3⟩
    | some res =>
      obtain ⟨hres, hid⟩ := find?_mem_id hfind
      cases hparse : parseDecision (normalizeDecision raw) with
      | none =>
        have heq : approve_or_reject st pk raw notes ap = (DecideResult.formError, st) := by
          unfold approve_or_reject
          rw [hfind, hparse]
        rw [heq]
        exact ⟨h1, h2, h3⟩
      | some d =>
        cases d with
        | APPR =>
          cases hc : hasConflict st res with
          | true =>
            have heq : approve_or_reject st pk raw notes ap =
                (DecideResult.conflictError, st) := by
              unfold approve_or_reject
              rw [hfind, hparse]
              simp [hc]
            rw [heq]
            exact ⟨h1, h2, h3⟩
          | false =>
            rw [approve_or_reject_run st pk raw notes ap res Decision.APPR hfind
              hparse (fun _ => hc)]
            have hsimp :
                (if Decision.APPR = Decision.APPR then Status.approved
                  else Status.rejected) = Status.approved := if_pos rfl
            rw [hsimp]
            refine ⟨?_, ?_, ?_⟩
            · rw [map_setStatus_ids]
              exact h1
            · intro r hr
              obtain ⟨x, hx, rfl⟩ := List.mem_map.mp hr
              rw [(setStatus_fields pk Status.approved x).1]
              exact h2 x hx
            · exact noOverlapPairs_setStatus st.reservations pk res
                Status.approved h1 hres hid h3
                (fun _ => hasConflict_eq_false st res hc)
        | REJ =>
          rw [approve_or_reject_run st pk raw notes ap res Decision.REJ hfind
            hparse (fun h => absurd h (by decide))]
          have hsimp :
              (if Decision.REJ = Decision.APPR then Status.approved
                else Status.rejected) = Status.rejected := if_neg (by decide)
          rw [hsimp]
          refine ⟨?_, ?_, ?_⟩
          · rw [map_setStatus_ids]
            exact h1
          · intro r hr
            obtain ⟨x, hx, rfl⟩ := List.mem_map.mp hr
            rw [(setStatus_fields pk Status.rejected x).1]
            exact h2 x hx
          · exact noOverlapPairs_setStatus st.reservations pk res
              Status.rejected h1 hres hid h3
              (fun hcontra => absurd hcontra (by decide))

lemma runOps_preserves (st : State) (ops : List Op)
    (h1 : (st.reservations.map Reservation.id).Nodup)
    (h2 : ∀ r ∈ st.reservations, r.id < st.nextReservationId)
    (h3 : noOverlapPairs st.reservations) :
    ((runOps st ops).reservations.map Reservation.id).Nodup ∧
    (∀ r ∈ (runOps st ops).reservations,
      r.id < (runOps st ops).nextReservationId) ∧
    noOverlapPairs (runOps st ops).reservations := by
  induction ops generalizing st with
  | nil => exact ⟨h1, h2, h3⟩
  | cons op rest ih =>
    obtain ⟨g1, g2, g3⟩ := stepOp_preserves st op h1 h2 h3
    exact ih (stepOp st op) g1 g2 g3

lemma update_or_create_keys (approvals : List Approval) (nextId pk approver : Nat)
    (d : Decision) (notes : String)
    (hk : (approvals.map Approval.reservation).Nodup) :
    ((update_or_create approvals nextId pk approver d notes).1.map
      Approval.reservation).Nodup := by
  unfold update_or_create
  by_cases h : approvals.any (fun a => a.reservation == pk) = true
  · rw [if_pos h]
    have hsame : ((approvals.map fun a =>
        if a.reservation == pk then
          { a with approver := approver, decision := d, notes := notes }
        else a).map Approval.reservation) = approvals.map Approval.reservation := by
      rw [List.map_map]
      apply List.map_congr_left
      intro a _
      by_cases hx : (a.reservation == pk) = true <;> simp [Function.comp, hx]
    rw [hsame]
    exact hk
  · rw [if_neg h]
    rw [List.map_append, List.nodup_append]
    refine ⟨hk, List.nodup_singleton _, ?_⟩
    intro x hx hy
    simp only [List.map_cons, List.map_nil, List.mem_singleton] at hy
    obtain ⟨a, ha, rfl⟩ := List.mem_map.mp hx
    rw [Bool.not_eq_true, List.any_eq_false] at h
    exact h a ha (beq_iff_eq.mpr hy)

lemma update_or_create_overwrite (approvals : List Approval)
    (nextId pk approver : Nat) (d : Decision) (notes : String) (a : Approval)
    (ha : a ∈ approvals) (hak : a.reservation = pk) :
    (update_or_create approvals nextId pk approver d notes).1.length =
      approvals.length ∧
    { a with approver := approver, decision := d, notes := notes } ∈
      (update_or_create approvals nextId pk approver d notes).1 := by
  have hany : approvals.any (fun x => x.reservation == pk) = true :=
    List.any_eq_true.mpr ⟨a, ha, beq_iff_eq.mpr hak⟩
  unfold update_or_create
  rw [if_pos hany]
  refine ⟨List.length_map _ _, ?_⟩
  have hx : (a.reservation == pk) = true := beq_iff_eq.mpr hak
  have hval : (fun x =>
      if x.reservation == pk then
        { x with approver := approver, decision := d, notes := notes }
      else x) a =
      { a with approver := approver, decision := d, notes := notes } := by
    simp [hx]
  rw [← hval]
  exact List.mem_map_of_mem _ ha

lemma stepOp_keys (st : State) (op : Op)
    (hk : (st.approvals.map Approval.reservation).Nodup) :
    ((stepOp st op).approvals.map Approval.reservation).Nodup := by
  cases op with
  | exportOp sep => exact hk
  | createOp u s a b p =>
    by_cases hlt : a < b
    · simp only [stepOp, createReservation, if_pos hlt]
      exact hk
    · simp only [stepOp, createReservation, if_neg hlt]
      exact hk
  | decideOp pk raw notes ap =>
    simp only [stepOp]
    cases hfind : st.reservations.find? (fun x => x.id == pk) with
    | none =>
      have heq : approve_or_reject st pk raw notes ap =
          (DecideResult.notFound, st) := by
        unfold approve_or_reject
        rw [hfind]
      rw [heq]
      exact hk
    | some res =>
      cases hparse : parseDecision (normalizeDecision raw) with
      | none =>
        have heq : approve_or_reject st pk raw notes ap =
            (DecideResult.formError, st) := by
          unfold approve_or_reject
          rw [hfind, hparse]
        rw [heq]
        exact hk
      | some d =>
        cases d with
        | APPR =>
          cases hc : hasConflict st res with
          | true =>
            have heq : approve_or_reject st pk raw notes ap =
                (DecideResult.conflictError, st) := by
              unfold approve_or_reject
              rw [hfind, hparse]
              simp [hc]
            rw [heq]
            exact hk
          | false =>
            rw [approve_or_reject_run st pk raw notes ap res Decision.APPR hfind
              hparse (fun _ => hc)]
            exact update_or_create_keys st.approvals st.nextApprovalId pk ap
              Decision.APPR notes hk
        | REJ =>
          rw [approve_or_reject_run st pk raw notes ap res Decision.REJ hfind
            hparse (fun h => absurd h (by decide))]
          exact update_or_create_keys st.approvals st.nextApprovalId pk ap
            Decision.REJ notes hk

lemma runOps_keys (st : State) (ops : List Op)
    (hk : (st.approvals.map Approval.reservation).Nodup) :
    ((runOps st ops).approvals.map Approval.reservation).Nodup := by
  induction ops generalizing st with
  | nil => exact hk
  | cons op rest ih => exact ih (stepOp st op) (stepOp_keys st op hk)

lemma maxfold_none (l : List Approval) (acc : Option Approval)
    (h : l.foldl (fun best x =>
      match best with
      | none => some x
      | some b => if b.id < x.id then some x else some b) acc = none) :
    l = [] ∧ acc = none := by
  induction l generalizing acc with
  | nil => exact ⟨rfl, h⟩
  | cons a t ih =>
    simp only [List.foldl_cons] at h
    obtain ⟨_, hacc⟩ := ih _ h
    cases acc with
    | none => cases hacc
    | some b =>
      have hacc2 : (if b.id < a.id then some a else some b : Option Approval) =
          none := hacc
      by_cases hba : b.id < a.id
      · rw [if_pos hba] at hacc2
        cases hacc2
      · rw [if_neg hba] at hacc2
        cases hacc2

lemma maxfold_le (l : List Approval) (acc : Option Approval) (m : Approval)
    (h : l.foldl (fun best x =>
      match best with
      | none => some x
      | some b => if b.id < x.id then some x else some b) acc = some m) :
    (∀ x ∈ l, x.id ≤ m.id) ∧ (∀ b, acc = some b → b.id ≤ m.id) ∧
      (m ∈ l ∨ acc = some m) := by
  induction l generalizing acc with
  | nil =>
    simp only [List.foldl_nil] at h
    refine ⟨fun x hx => absurd hx (List.not_mem_nil x), ?_, Or.inr h⟩
    intro b hb
    rw [hb] at h
    injection h with h
    rw [h]
  | cons a t ih =>
    simp only [List.foldl_cons] at h
    cases acc with
    | none =>
      obtain ⟨h1, h2, h3⟩ := ih (some a) h
      have ham : a.id ≤ m.id := h2 a rfl
      refine ⟨?_, ?_, ?_⟩
      · intro x hx
        rcases List.mem_cons.mp hx with rfl | hx
        · exact ham
        · exact h1 x hx
      · intro b hb
        cases hb
      · rcases h3 with hm | hm
        · exact Or.inl (List.mem_cons_of_mem a hm)
        · injection hm with hm
          exact Or.inl (hm ▸ List.mem_cons_self a t)
    | some b =>
      have h' : t.foldl (fun best x =>
          match best with
          | none => some x
          | some b => if b.id < x.id then some x else some b)
          (if b.id < a.id then some a else some b) = some m := h
      by_cases hba : b.id < a.id
      · rw [if_pos hba] at h'
        obtain ⟨h1, h2, h3⟩ := ih (some a) h'
        have ham : a.id ≤ m.id := h2 a rfl
        refine ⟨?_, ?_, ?_⟩
        · intro x hx
          rcases List.mem_cons.mp hx with rfl | hx
          · exact ham
          · exact h1 x hx
        · intro c hc
          injection hc with hc
          exact hc ▸ Nat.le_trans (Nat.le_of_lt hba) ham
        · rcases h3 with hm | hm
          · exact Or.inl (List.mem_cons_of_mem a hm)
          · injection hm with hm
            exact Or.inl (hm ▸ List.mem_cons_self a t)
      · rw [if_neg hba] at h'
        obtain ⟨h1, h2, h3⟩ := ih (some b) h'
        have hbm : b.id ≤ m.id := h2 b rfl
        refine ⟨?_, ?_, ?_⟩
        · intro x hx
          rcases List.mem_cons.mp hx with rfl | hx
          · exact Nat.le_trans (Nat.not_lt.mp hba) hbm
          · exact h1 x hx
        · intro c hc
          injection hc with hc
          exact hc ▸ hbm
        · rcases h3 with hm | hm
          · exact Or.inl (List.mem_cons_of_mem a hm)
          · exact Or.inr hm

lemma latestApproval_none (st : State) (pk : Nat)
    (h : ∀ a ∈ st.approvals, a.reservation ≠ pk) :
    latestApproval st pk = none := by
  unfold latestApproval
  have hnil : st.approvals.filter (fun a => a.reservation == pk) = [] := by
    rw [List.filter_eq_nil_iff]
    intro a ha
    simp [h a ha]
  rw [hnil]
  rfl

lemma latestApproval_max (st : State) (pk : Nat) (a : Approval)
    (hids : (st.approvals.map Approval.id).Nodup)
    (ha : a ∈ st.approvals) (hak : a.reservation = pk)
    (hmax : ∀ b ∈ st.approvals, b.reservation = pk → b.id ≤ a.id) :
    latestApproval st pk = some a := by
  unfold latestApproval
  have hafl : a ∈ st.approvals.filter (fun x => x.reservation == pk) :=
    List.mem_filter.mpr ⟨ha, beq_iff_eq.mpr hak⟩
  cases hres : (st.approvals.filter (fun x => x.reservation == pk)).foldl
      (fun best x =>
        match best with
        | none => some x
        | some b => if b.id < x.id then some x else some b) none with
  | none =>
    have := (maxfold_none _ none hres).1
    rw [this] at hafl
    exact absurd hafl (List.not_mem_nil a)
  | some m =>
    obtain ⟨h1, _, h3⟩ := maxfold_le _ none m hres
    have hm_fl : m ∈ st.approvals.filter (fun x => x.reservation == pk) := by
      rcases h3 with hm | hm
      · exact hm
      · cases hm
    obtain ⟨hm_ap, hm_pk⟩ := List.mem_filter.mp hm_fl
    have hma : m = a :=
      List.inj_on_of_nodup_map hids hm_ap ha
        (Nat.le_antisymm (hmax m hm_ap (beq_iff_eq.mp hm_pk)) (h1 a hafl))
    rw [hma]

lemma rows_getD (st : State) (i : Nat) (hi : i < st.reservations.length) :
    (export_reservations_csv st none).2.rows.getD i [] =
      exportRow st (st.reservations.getD i defaultReservation) := by
  have hrows : (export_reservations_csv st none).2.rows =
      st.reservations.map (exportRow st) := rfl
  rw [hrows, List.getD_eq_getElem?_getD, List.getD_eq_getElem?_getD,
    List.getElem?_map, List.getElem?_eq_getElem hi]
  simp

/-- C3: the conflict check returns true iff some stored reservation of the
same space, with status Approved and an id different from the candidate's,
has an interval overlapping the candidate's under the half-open rule
`s1 < e2 AND s2 < e1`.  In particular a Pending reservation never witnesses
the existential, and an adjacent interval (`c.stop = o.start` or
`o.stop = c.start`) fails the strict inequalities, so neither causes a
conflict. -/
theorem conflict_check_spec (st : State) (c : Reservation) :
    hasConflict st c = true ↔
      ∃ o ∈ st.reservations, o.space = c.space ∧ o.status = Status.approved ∧
        o.id ≠ c.id ∧ c.start < o.stop ∧ o.start < c.stop := by
  rw [hasConflict_eq_true]
  constructor
  · rintro ⟨o, ho, h1, h2, h3, h4, h5⟩
    exact ⟨o, ho, h1, h2, h3, h5, h4⟩
  · rintro ⟨o, ho, h1, h2, h3, h4, h5⟩
    exact ⟨o, ho, h1, h2, h3, h5, h4⟩

/-- C2: an Approve decision on a reservation that conflicts with another
Approved reservation of the same space fails with a conflict error and
leaves the whole state unchanged: no status change, no decision record, no
notification. -/
theorem approve_conflict_aborts (st : State) (pk : Nat) (raw notes : String)
    (approver : Nat) (r : Reservation)
    (hr : st.reservations.find? (fun x => x.id == pk) = some r)
    (hd : parseDecision (normalizeDecision raw) = some Decision.APPR)
    (hc : hasConflict st r = true) :
    approve_or_reject st pk raw notes approver = (DecideResult.conflictError, st) := by
  unfold approve_or_reject
  rw [hr, hd]
  simp [hc]

theorem approve_conflict_aborts_witness :
    sampleState.reservations.find? (fun x => x.id == 2) = some sampleRes2 ∧
    parseDecision (normalizeDecision "APPR") = some Decision.APPR ∧
    hasConflict sampleState sampleRes2 = true ∧
    approve_or_reject sampleState 2 "APPR" "hay choque" 5 =
      (DecideResult.conflictError, sampleState) :=
  ⟨by decide, by decide, by decide,
    approve_conflict_aborts sampleState 2 "APPR" "hay choque" 5 sampleRes2
      (by decide) (by decide) (by decide)⟩

/-- C4: an Approve decision on a reservation with no conflicting Approved
reservation always succeeds: a decision record with this approver, decision
and notes is present afterwards (freshly appended when none existed for this
reservation, per the update-or-create semantics), the reservation's status is
persisted as Approved, and one notification to the reservation's owner
referencing the approval outcome is emitted. -/
theorem approve_no_conflict_succeeds (st : State) (pk : Nat) (raw notes : String)
    (approver : Nat) (r : Reservation)
    (hr : st.reservations.find? (fun x => x.id == pk) = some r)
    (hd : parseDecision (normalizeDecision raw) = some Decision.APPR)
    (hnc : hasConflict st r = false) :
    (approve_or_reject st pk raw notes approver).1 = DecideResult.success ∧
    (∃ a ∈ (approve_or_reject st pk raw notes approver).2.approvals,
      a.reservation = pk ∧ a.approver = approver ∧
        a.decision = Decision.APPR ∧ a.notes = notes) ∧
    (st.approvals.any (fun a => a.reservation == pk) = false →
      (approve_or_reject st pk raw notes approver).2.approvals =
        st.approvals ++ [⟨st.nextApprovalId, pk, approver, Decision.APPR, notes⟩]) ∧
    (approve_or_reject st pk raw notes approver).2.reservations =
      st.reservations.map (fun x =>
        if x.id == pk then { x with status := Status.approved } else x) ∧
    (approve_or_reject st pk raw notes approver).2.notifications =
      st.notifications ++ [⟨r.user, approvedMsg r⟩] := by
  rw [approve_or_reject_run st pk raw notes approver r Decision.APPR hr hd
    (fun _ => hnc)]
  refine ⟨rfl, ?_, ?_, by simp, by simp⟩
  · simpa using update_or_create_mem st.approvals st.nextApprovalId pk approver
      Decision.APPR notes
  · intro hne
    simp [update_or_create, hne]

theorem approve_no_conflict_succeeds_witness :
    sampleState.reservations.find? (fun x => x.id == 3) = some sampleRes3 ∧
    parseDecision (normalizeDecision "APPR") = some Decision.APPR ∧
    hasConflict sampleState sampleRes3 = false ∧
    ((approve_or_reject sampleState 3 "APPR" "adelante" 5).1 = DecideResult.success ∧
     (∃ a ∈ (approve_or_reject sampleState 3 "APPR" "adelante" 5).2.approvals,
       a.reservation = 3 ∧ a.approver = 5 ∧
         a.decision = Decision.APPR ∧ a.notes = "adelante") ∧
     (sampleState.approvals.any (fun a => a.reservation == 3) = false →
       (approve_or_reject sampleState 3 "APPR" "adelante" 5).2.approvals =
         sampleState.approvals ++
           [⟨sampleState.nextApprovalId, 3, 5, Decision.APPR, "adelante"⟩]) ∧
     (approve_or_reject sampleState 3 "APPR" "adelante" 5).2.reservations =
       sampleState.reservations.map (fun x =>
         if x.id == 3 then { x with status := Status.approved } else x) ∧
     (approve_or_reject sampleState 3 "APPR" "adelante" 5).2.notifications =
       sampleState.notifications ++ [⟨sampleRes3.user, approvedMsg sampleRes3⟩]) :=
  ⟨by decide, by decide, by decide,
    approve_no_conflict_succeeds sampleState 3 "APPR" "adelante" 5 sampleRes3
      (by decide) (by decide) (by decide)⟩

/-- C5: a Reject decision on any stored reservation succeeds with no conflict
hypothesis at all — the conflict guard only runs for approvals — writing the
decision record, persisting status Rejected, and notifying the owner, for
every store, including stores full of overlapping Approved reservations. -/
theorem reject_always_succeeds (st : State) (pk : Nat) (raw notes : String)
    (approver : Nat) (r : Reservation)
    (hr : st.reservations.find? (fun x => x.id == pk) = some r)
    (hd : parseDecision (normalizeDecision raw) = some Decision.REJ) :
    (approve_or_reject st pk raw notes approver).1 = DecideResult.success ∧
    (∃ a ∈ (approve_or_reject st pk raw notes approver).2.approvals,
      a.reservation = pk ∧ a.approver = approver ∧
        a.decision = Decision.REJ ∧ a.notes = notes) ∧
    (approve_or_reject st pk raw notes approver).2.reservations =
      st.reservations.map (fun x =>
        if x.id == pk then { x with status := Status.rejected } else x) ∧
    (approve_or_reject st pk raw notes approver).2.notifications =
      st.notifications ++ [⟨r.user, rejectedMsg r⟩] := by
  rw [approve_or_reject_run st pk raw notes approver r Decision.REJ hr hd
    (fun h => absurd h (by decide))]
  refine ⟨rfl, ?_, by simp, by simp⟩
  simpa using update_or_create_mem st.approvals st.nextApprovalId pk approver
    Decision.REJ notes

theorem reject_always_succeeds_witness :
    sampleState.reservations.find? (fun x => x.id == 2) = some sampleRes2 ∧
    parseDecision (normalizeDecision "REJ") = some Decision.REJ ∧
    ((approve_or_reject sampleState 2 "REJ" "no procede" 5).1 = DecideResult.success ∧
     (∃ a ∈ (approve_or_reject sampleState 2 "REJ" "no procede" 5).2.approvals,
       a.reservation = 2 ∧ a.approver = 5 ∧
         a.decision = Decision.REJ ∧ a.notes = "no procede") ∧
     (approve_or_reject sampleState 2 "REJ" "no procede" 5).2.reservations =
       sampleState.reservations.map (fun x =>
         if x.id == 2 then { x with status := Status.rejected } else x) ∧
     (approve_or_reject sampleState 2 "REJ" "no procede" 5).2.notifications =
       sampleState.notifications ++ [⟨sampleRes2.user, rejectedMsg sampleRes2⟩]) :=
  ⟨by decide, by decide,
    reject_always_succeeds sampleState 2 "REJ" "no procede" 5 sampleRes2
      (by decide) (by decide)⟩

/-- C7: creation validates the time window before any persistence — with
`stop ≤ start` the result is a validation error and the state is exactly the
input state (no reservation stored, no notification emitted) — and every
valid request appends the reservation in Pending status; the success case
holds for every store whatsoever, so no conflict check takes part in
creation. -/
theorem create_validation_and_pending (st : State) (user space : Nat)
    (start stop : Int) (purpose : String) :
    (stop ≤ start →
      createReservation st user space start stop purpose =
        (CreateResult.validationError, st)) ∧
    (start < stop →
      (createReservation st user space start stop purpose).1 =
        CreateResult.created ∧
      (createReservation st user space start stop purpose).2.reservations =
        st.reservations ++
          [⟨st.nextReservationId, user, space, start, stop, Status.pending,
            purpose⟩]) := by
  constructor
  · intro h
    simp [createReservation, not_lt.mpr h]
  · intro h
    simp [createReservation, h]

theorem create_validation_and_pending_witness :
    ((10 : Int) ≤ 10 ∧
      createReservation sampleState 11 1 10 10 "tarde" =
        (CreateResult.validationError, sampleState)) ∧
    ((5 : Int) < 8 ∧
      (createReservation sampleState 11 1 5 8 "ensayo").1 = CreateResult.created ∧
      (createReservation sampleState 11 1 5 8 "ensayo").2.reservations =
        sampleState.reservations ++
          [⟨sampleState.nextReservationId, 11, 1, 5, 8, Status.pending,
            "ensayo"⟩]) :=
  ⟨⟨by decide,
      (create_validation_and_pending sampleState 11 1 10 10 "tarde").1 (by decide)⟩,
   ⟨by decide,
      (create_validation_and_pending sampleState 11 1 5 8 "ensayo").2 (by decide)⟩⟩

/-- C8: a successful creation emits exactly one notification per staff user —
the notification table grows by the list of staff users, so with N staff
users exactly N notification events are produced. -/
theorem create_notifies_each_staff (st : State) (user space : Nat)
    (start stop : Int) (purpose : String) (h : start < stop) :
    (createReservation st user space start stop purpose).1 =
      CreateResult.created ∧
    (createReservation st user space start stop purpose).2.notifications =
      st.notifications ++
        (st.users.filter (fun u => u.is_staff)).map
          (fun u => ⟨u.id, "Nueva reserva pendiente de aprobación."⟩) ∧
    (createReservation st user space start stop purpose).2.notifications.length =
      st.notifications.length +
        (st.users.filter (fun u => u.is_staff)).length := by
  refine ⟨by simp [createReservation, h], by simp [createReservation, h], ?_⟩
  simp [createReservation, h]

theorem create_notifies_each_staff_witness :
    (100 : Int) < 200 ∧
    ((createReservation sampleState 11 1 100 200 "charla").1 =
      CreateResult.created ∧
    (createReservation sampleState 11 1 100 200 "charla").2.notifications =
      sampleState.notifications ++
        (sampleState.users.filter (fun u => u.is_staff)).map
          (fun u => ⟨u.id, "Nueva reserva pendiente de aprobación."⟩) ∧
    (createReservation sampleState 11 1 100 200 "charla").2.notifications.length =
      sampleState.notifications.length +
        (sampleState.users.filter (fun u => u.is_staff)).length) :=
  ⟨by decide,
    create_notifies_each_staff sampleState 11 1 100 200 "charla" (by decide)⟩

/-- C10: the legacy button values are normalised before validation, so a
decision submitted as `"approve"` yields exactly the same outcome and state
as `"APPR"`, and `"reject"` the same as `"REJ"`, for every store, reservation
id, notes text and approver. -/
theorem legacy_decision_values_equivalent (st : State) (pk : Nat)
    (notes : String) (approver : Nat) :
    approve_or_reject st pk "approve" notes approver =
      approve_or_reject st pk "APPR" notes approver ∧
    approve_or_reject st pk "reject" notes approver =
      approve_or_reject st pk "REJ" notes approver :=
  ⟨approve_or_reject_congr st pk "approve" "APPR" notes approver (by decide),
   approve_or_reject_congr st pk "reject" "REJ" notes approver (by decide)⟩

/-- C1: starting from a well-formed store (pairwise distinct reservation ids
below the autoincrement counter) with no overlapping Approved reservations,
the state reached after every sequence of workflow operations — creations,
decisions and exports — still has no pair of distinct Approved reservations
of the same space with overlapping half-open intervals. -/
theorem approved_no_overlap_invariant (st : State) (ops : List Op)
    (hw : wfStore st) (h : approvedNoOverlap st) :
    approvedNoOverlap (runOps st ops) :=
  (runOps_preserves st ops hw.1 hw.2 h).2.2

theorem approved_no_overlap_invariant_witness :
    wfStore sampleState ∧ approvedNoOverlap sampleState ∧
      approvedNoOverlap (runOps sampleState
        [Op.createOp 11 1 100 200 "charla", Op.decideOp 3 "approve" "ok" 5,
          Op.decideOp 2 "reject" "tarde" 5, Op.exportOp none]) :=
  ⟨by unfold wfStore; decide,
   by unfold approvedNoOverlap noOverlapPairs; decide,
   approved_no_overlap_invariant sampleState
     [Op.createOp 11 1 100 200 "charla", Op.decideOp 3 "approve" "ok" 5,
       Op.decideOp 2 "reject" "tarde" 5, Op.exportOp none]
     (by unfold wfStore; decide)
     (by unfold approvedNoOverlap noOverlapPairs; decide)⟩

/-- C6: if each reservation has at most one decision record, every sequence
of workflow operations preserves that, and a successful second decision on a
reservation that already has a record keeps the table length unchanged and
overwrites that record's approver, decision and notes in place (same row id,
same reservation key) instead of appending. -/
theorem decision_record_at_most_one (st : State)
    (hk : (st.approvals.map Approval.reservation).Nodup) :
    (∀ ops : List Op,
      ((runOps st ops).approvals.map Approval.reservation).Nodup) ∧
    (∀ (pk approver : Nat) (raw notes : String) (a : Approval) (d : Decision),
      a ∈ st.approvals → a.reservation = pk →
      parseDecision (normalizeDecision raw) = some d →
      (approve_or_reject st pk raw notes approver).1 = DecideResult.success →
      (approve_or_reject st pk raw notes approver).2.approvals.length =
        st.approvals.length ∧
      { a with approver := approver, decision := d, notes := notes } ∈
        (approve_or_reject st pk raw notes approver).2.approvals) := by
  constructor
  · intro ops
    exact runOps_keys st ops hk
  · intro pk approver raw notes a d ha hak hparse hsucc
    cases hfind : st.reservations.find? (fun x => x.id == pk) with
    | none =>
      have heq : approve_or_reject st pk raw notes approver =
          (DecideResult.notFound, st) := by
        unfold approve_or_reject
        rw [hfind]
      rw [heq] at hsucc
      exact DecideResult.noConfusion hsucc
    | some res =>
      by_cases hcase : d = Decision.APPR ∧ hasConflict st res = true
      · obtain ⟨hd, hc⟩ := hcase
        subst hd
        have heq : approve_or_reject st pk raw notes approver =
            (DecideResult.conflictError, st) := by
          unfold approve_or_reject
          rw [hfind, hparse]
          simp [hc]
        rw [heq] at hsucc
        exact DecideResult.noConfusion hsucc
      · have hnc : d = Decision.APPR → hasConflict st res = false := by
          intro hd
          cases hconf : hasConflict st res with
          | false => rfl
          | true => exact absurd ⟨hd, hconf⟩ hcase
        rw [approve_or_reject_run st pk raw notes approver res d hfind hparse hnc]
        exact update_or_create_overwrite st.approvals st.nextApprovalId pk
          approver d notes a ha hak

theorem decision_record_at_most_one_witness :
    (sampleState.approvals.map Approval.reservation).Nodup ∧
    (⟨1, 1, 5, Decision.APPR, "ok"⟩ : Approval) ∈ sampleState.approvals ∧
    parseDecision (normalizeDecision "APPR") = some Decision.APPR ∧
    (approve_or_reject sampleState 1 "APPR" "revisado" 5).1 =
      DecideResult.success ∧
    ((runOps sampleState [Op.decideOp 2 "REJ" "no procede" 5]).approvals.map
      Approval.reservation).Nodup ∧
    (approve_or_reject sampleState 1 "APPR" "revisado" 5).2.approvals.length =
      sampleState.approvals.length ∧
    (⟨1, 1, 5, Decision.APPR, "revisado"⟩ : Approval) ∈
      (approve_or_reject sampleState 1 "APPR" "revisado" 5).2.approvals :=
  ⟨by decide, by decide, by decide, by decide,
   (decision_record_at_most_one sampleState (by decide)).1
     [Op.decideOp 2 "REJ" "no procede" 5],
   ((decision_record_at_most_one sampleState (by decide)).2 1 5 "APPR"
     "revisado" ⟨1, 1, 5, Decision.APPR, "ok"⟩ Decision.APPR (by decide) rfl
     (by decide) (by decide)).1,
   ((decision_record_at_most_one sampleState (by decide)).2 1 5 "APPR"
     "revisado" ⟨1, 1, 5, Decision.APPR, "ok"⟩ Decision.APPR (by decide) rfl
     (by decide) (by decide)).2⟩

/-- C9: the CSV export is a pure read projection — the state component of
its result is the input state — whose output carries the UTF-8 byte-order
mark, the delimiter defaults to `;` when no separator is requested, the
header row is exactly the eight fixed column names, there is one data row
per stored reservation, and the last cell of row `i` holds the
newline-flattened, trimmed notes of the approval with the greatest id among
those keyed by that reservation (the most recent decision), or the empty
string when that reservation has no decision. -/
theorem export_csv_read_projection (st : State)
    (hids : (st.approvals.map Approval.id).Nodup)
    (i : Nat) (hi : i < st.reservations.length)
    (r : Reservation) (hr : st.reservations.getD i defaultReservation = r) :
    (export_reservations_csv st none).1 = st ∧
    (export_reservations_csv st none).2.bom = "\ufeff" ∧
    (export_reservations_csv st none).2.delimiter = ";" ∧
    (export_reservations_csv st none).2.header =
      ["ID", "Usuario", "Espacio", "Inicio", "Fin", "Estado", "Comentario",
        "Notas de la decision final"] ∧
    (export_reservations_csv st none).2.rows.length = st.reservations.length ∧
    ∃ cell : String,
      (export_reservations_csv st none).2.rows.getD i [] =
        [toString r.id, usernameOf st r.user, spaceNameOf st r.space,
          formatDateTime r.start, formatDateTime r.stop,
          get_status_display r.status, csvClean r.purpose, cell] ∧
      ((∀ a ∈ st.approvals, a.reservation ≠ r.id) → cell = "") ∧
      (∀ a ∈ st.approvals, a.reservation = r.id →
        (∀ b ∈ st.approvals, b.reservation = r.id → b.id ≤ a.id) →
        cell = csvClean a.notes) := by
  subst hr
  refine ⟨rfl, rfl, rfl, rfl, List.length_map _ _, ?_⟩
  refine ⟨exportNotesCell st (st.reservations.getD i defaultReservation).id,
    ?_, ?_, ?_⟩
  · rw [rows_getD st i hi]
    rfl
  · intro h
    unfold exportNotesCell
    rw [latestApproval_none st _ h]
    rfl
  · intro a ha hak hmax
    unfold exportNotesCell
    rw [latestApproval_max st _ a hids ha hak hmax]
    rfl

theorem export_csv_read_projection_witness :
    (sampleState.approvals.map Approval.id).Nodup ∧
    0 < sampleState.reservations.length ∧
    sampleState.reservations.getD 0 defaultReservation = sampleRes1 ∧
    ((export_reservations_csv sampleState none).1 = sampleState ∧
     (export_reservations_csv sampleState none).2.bom = "\ufeff" ∧
     (export_reservations_csv sampleState none).2.delimiter = ";" ∧
     (export_reservations_csv sampleState none).2.header =
       ["ID", "Usuario", "Espacio", "Inicio", "Fin", "Estado", "Comentario",
         "Notas de la decision final"] ∧
     (export_reservations_csv sampleState none).2.rows.length =
       sampleState.reservations.length ∧
     ∃ cell : String,
       (export_reservations_csv sampleState none).2.rows.getD 0 [] =
         [toString sampleRes1.id, usernameOf sampleState sampleRes1.user,
           spaceNameOf sampleState sampleRes1.space,
           formatDateTime sampleRes1.start, formatDateTime sampleRes1.stop,
           get_status_display sampleRes1.status, csvClean sampleRes1.purpose,
           cell] ∧
       ((∀ a ∈ sampleState.approvals, a.reservation ≠ sampleRes1.id) →
         cell = "") ∧
       (∀ a ∈ sampleState.approvals, a.reservation = sampleRes1.id →
         (∀ b ∈ sampleState.approvals, b.reservation = sampleRes1.id →
           b.id ≤ a.id) →
         cell = csvClean a.notes)) :=
  ⟨by decide, by decide, by decide,
    export_csv_read_projection sampleState (by decide) 0 (by decide) sampleRes1
      (by decide)⟩

end Reservas
